import Mathlib

/-!
# aws-vault: the `add`, `exec` and `login` commands

A shallow embedding of `src/add.go`, `src/exec.go` and `src/login.go`.

* Go strings are modelled by Lean strings; `strings.HasPrefix` compares the
  two character sequences position by position.
* A Go slice of strings (`environ`) is a `List String`.  Indexing is checked:
  an index outside the slice is a run-time panic in Go and `none` here.
* Everything a command calls outside the three files (the keyring, the
  credential chain, the profile parser, the sub-process, the HTTP client,
  the terminal prompt) is a field of a *world* record giving the answer of
  that collaborator in the run under study.  A command is a function from a
  world and its input to the list of calls it makes, in order, and the way it
  ends.
* `app.Fatalf` (kingpin) prints the formatted message and terminates the
  process with status 1; the command ends there.  The message is recorded as
  the format string and the argument list handed to `Fatalf`; the rendering
  done by the formatting library is not modelled.
* The goroutine of `ExecCommand` that forwards signals to the child is not
  modelled.
-/

namespace AwsVault

/-! ## Strings and the environment slice (`src/exec.go`, lines 149-167) -/

/-- The library function `strings.HasPrefix(s, prefix)`. -/
def HasPrefix (s pre : String) : Bool :=
  pre.data.isPrefixOf s.data

/-- The type `environ []string` of `src/exec.go`: a slice of strings of the form
`key=value`. -/
abbrev environ := List String

namespace environ

/-- The `for i := range *e` loop of `Unset`: `i` is the current index and the
second argument the number of iterations left (the length of the slice is read
once, when the loop starts).  On the first entry with prefix `key=` the last
entry is copied over it, the slice is cut by one and the loop is left with
`break`.  An index outside the slice gives `none`. -/
def Unset.loop (key : String) (e : environ) : Nat → Nat → Option environ
  | _, 0 => some e
  | i, n + 1 =>
    match e[i]? with
    | none => none
    | some s =>
      if HasPrefix s (key ++ "=") then
        match e[e.length - 1]? with
        | none => none
        | some last => some ((e.set i last).take (e.length - 1))
      else
        Unset.loop key e (i + 1) n

/-- The method `func (e *environ) Unset(key string)`; the result is the slice
left in `*e`, or `none` when an index is out of range. -/
def Unset (e : environ) (key : String) : Option environ :=
  Unset.loop key e 0 e.length

/-- The method `func (e *environ) Set(key, val string)`: `e.Unset(key)` followed by
`*e = append(*e, key+"="+val)`. -/
def Set (e : environ) (key val : String) : Option environ :=
  match Unset e key with
  | none => none
  | some e1 => some (e1 ++ [key ++ "=" ++ val])

end environ

/-! ## Values shared by the commands -/

/-- The record `credentials.Value` of the AWS SDK, restricted to the three
fields the commands read. -/
structure Value where
  AccessKeyID : String
  SecretAccessKey : String
  SessionToken : String
  deriving DecidableEq, Repr

/-- A Go `error` value: `msg` is what `err.Error()` returns, and `awsCode` is
`some c` exactly when the type assertion `err.(awserr.Error)` succeeds, with
`c` the result of `Code()`. -/
structure GoError where
  awsCode : Option String
  msg : String
  deriving DecidableEq, Repr

/-- The error returned by `cmd.Run()`: `exitStatus` is `some c` exactly when the
type assertion `err.(*exec.ExitError)` succeeds, with `c` the exit status of
the wait status it carries. -/
structure RunError where
  exitStatus : Option Nat
  msg : String
  deriving DecidableEq, Repr

/-- The calls a command makes to the world, in the order of the trace. -/
inductive Event where
  | Fatalf (format : String) (args : List String)
  | Errorf (format : String) (args : List String)
  | Println (msg : String)
  | Printf (format : String) (args : List String)
  | TerminalPrompt (prompt : String)
  | Retrieve (profile : String)
  | Store (profile : String) (creds : Value)
  | NewVaultCredentials (profile : String)
  | NewVaultProvider (profile : String)
  | Get (profile : String)
  | startCredentialsServer
  | parseProfiles
  | NewKeyringSessions
  | Delete (profile : String)
  | Run (command : String) (args : List String) (env : environ)
  | Exit (status : Nat)
  | Do (action session : String)
  | openRun (url : String)
  deriving DecidableEq, Repr

/-- How a command ends: it returns to its caller, `Fatalf` terminates the
process with status 1, `os.Exit` terminates it with the given status, or the
run-time panics. -/
inductive Outcome where
  | returned
  | fatal
  | exited (status : Nat)
  | panicked
  deriving DecidableEq, Repr

/-- The observable run of a command. -/
structure Result where
  trace : List Event
  outcome : Outcome
  deriving DecidableEq, Repr

/-! ## `ExecCommand` (`src/exec.go`, lines 18-147) -/

/-- The fields of `ExecCommandInput` that decide the control flow and the child
environment (the keyring handle, the durations, the MFA token and prompt and
the signal channel are only handed on to collaborators). -/
structure ExecCommandInput where
  Profile : String
  Command : String
  Args : List String
  StartServer : Bool
  NoSession : Bool

/-- The answers of the collaborators of `ExecCommand` in one run. -/
structure ExecWorld where
  /-- The call `os.Getenv(key)`. -/
  Getenv : String → String
  /-- The call `os.Environ()`. -/
  Environ : environ
  /-- The call `provider.Retrieve()` on the keyring provider of a profile. -/
  Retrieve : String → Except GoError Value
  /-- The error result of `NewVaultCredentials(keyring, profile, options)`. -/
  NewVaultCredentials : String → Option GoError
  /-- The call `creds.Get()` on the credentials of a profile. -/
  Get : String → Except GoError Value
  /-- The error result of `startCredentialsServer(creds)`. -/
  startCredentialsServer : Option GoError
  /-- The call `parseProfiles()`; a profile map sends a profile name and a key to
  the value stored under it, if any. -/
  parseProfiles : Except GoError (String → String → Option String)
  /-- The error result of `cmd.Run()` for a command, its arguments and its
  environment. -/
  Run : String → List String → environ → Option RunError

/-- Lines 97-121 of `ExecCommand`: the environment handed to the sub-process,
from the snapshot `os.Environ()`, the profile name, the result of the lookup
`profs[input.Profile]["region"]`, the flag `writeEnv` and the resolved
credential value. -/
def ExecCommand.env (ambient : environ) (profile : String) (region : Option String)
    (writeEnv : Bool) (val : Value) : Option environ := do
  let e ← environ.Set ambient "AWS_VAULT" profile
  let e ← environ.Unset e "AWS_ACCESS_KEY_ID"
  let e ← environ.Unset e "AWS_SECRET_ACCESS_KEY"
  let e ← environ.Unset e "AWS_CREDENTIAL_FILE"
  let e ← environ.Unset e "AWS_DEFAULT_PROFILE"
  let e ← environ.Unset e "AWS_PROFILE"
  let e ←
    match region with
    | some r => do
      let e ← environ.Set e "AWS_DEFAULT_REGION" r
      environ.Set e "AWS_REGION" r
    | none => some e
  if writeEnv then do
    let e ← environ.Set e "AWS_ACCESS_KEY_ID" val.AccessKeyID
    let e ← environ.Set e "AWS_SECRET_ACCESS_KEY" val.SecretAccessKey
    if val.SessionToken ≠ "" then do
      let e ← environ.Set e "AWS_SESSION_TOKEN" val.SessionToken
      environ.Set e "AWS_SECURITY_TOKEN" val.SessionToken
    else
      some e
  else
    some e

/-- Lines 38-89 of `ExecCommand`: the resolution of the credential value.  The
result is either the run that ended in `Fatalf`, or the calls made so far with
the value `val` and the flag `writeEnv`. -/
def ExecCommand.resolve (w : ExecWorld) (input : ExecCommandInput) :
    Except Result (List Event × Value × Bool) :=
  if input.NoSession then
    if input.StartServer then
      .error ⟨[.Fatalf "Can't start a credential server without a session" []], .fatal⟩
    else
      match w.Retrieve input.Profile with
      | .error err =>
        .error ⟨[.Println "No session requested, be careful!", .Retrieve input.Profile,
          .Fatalf err.msg []], .fatal⟩
      | .ok val =>
        .ok ([.Println "No session requested, be careful!", .Retrieve input.Profile], val, true)
  else
    match w.NewVaultCredentials input.Profile with
    | some err =>
      .error ⟨[.NewVaultCredentials input.Profile, .Fatalf err.msg []], .fatal⟩
    | none =>
      match w.Get input.Profile with
      | .error err =>
        if err.awsCode = some "NoCredentialProviders" then
          .error ⟨[.NewVaultCredentials input.Profile, .Get input.Profile,
            .Fatalf "No credentials found for profile %q" [input.Profile]], .fatal⟩
        else
          .error ⟨[.NewVaultCredentials input.Profile, .Get input.Profile,
            .Fatalf err.msg []], .fatal⟩
      | .ok val =>
        if input.StartServer then
          match w.startCredentialsServer with
          | some err =>
            .error ⟨[.NewVaultCredentials input.Profile, .Get input.Profile,
              .startCredentialsServer, .Fatalf err.msg []], .fatal⟩
          | none =>
            .ok ([.NewVaultCredentials input.Profile, .Get input.Profile,
              .startCredentialsServer], val, false)
        else
          .ok ([.NewVaultCredentials input.Profile, .Get input.Profile], val, true)

/-- Lines 123-146 of `ExecCommand`: the sub-process is run with the environment
`env`; `tr` is the trace so far.  The inner test `err != nil` repeats the outer
one, so the branch that reads the exit status is only reached when it fails. -/
def ExecCommand.launch (w : ExecWorld) (input : ExecCommandInput) (tr : List Event)
    (env : environ) : Result :=
  let tr := tr ++ [.Run input.Command input.Args env]
  let err := w.Run input.Command input.Args env
  if err.isSome then
    if err.isSome then
      ⟨tr ++ [.Errorf ((err.map RunError.msg).getD "") []], .returned⟩
    else
      match err.bind RunError.exitStatus with
      | some status => ⟨tr ++ [.Exit status], .exited status⟩
      | none => ⟨tr, .returned⟩
  else
    ⟨tr, .returned⟩

/-- The function `ExecCommand(app, input)`. -/
def ExecCommand (w : ExecWorld) (input : ExecCommandInput) : Result :=
  if w.Getenv "AWS_VAULT" ≠ "" then
    ⟨[.Fatalf "aws-vault sessions should be nested with care, unset $AWS_VAULT to force" []],
      .fatal⟩
  else
    match ExecCommand.resolve w input with
    | .error r => r
    | .ok (tr, val, writeEnv) =>
      match w.parseProfiles with
      | .error err => ⟨tr ++ [.parseProfiles, .Fatalf err.msg []], .fatal⟩
      | .ok profs =>
        match ExecCommand.env w.Environ input.Profile (profs input.Profile "region")
            writeEnv val with
        | none => ⟨tr ++ [.parseProfiles], .panicked⟩
        | some env =>
          ExecCommand.launch w input
            (tr ++ [.parseProfiles] ++
              (if writeEnv then [.Println "Writing temporary credentials to ENV"] else []))
            env

/-- The environment of the sub-process launched in a run, if one was launched. -/
def childEnv (r : Result) : Option environ :=
  r.trace.findSome? fun ev =>
    match ev with
    | .Run _ _ env => some env
    | _ => none

/-! ## `AddCommand` (`src/add.go`) -/

/-- The fields of `AddCommandInput` read by the command (the keyring handle is
handed on to collaborators). -/
structure AddCommandInput where
  Profile : String
  FromEnv : Bool

/-- The answers of the collaborators of `AddCommand` in one run. -/
structure AddWorld where
  /-- The call `os.Getenv(key)`. -/
  Getenv : String → String
  /-- The call `prompt.TerminalPrompt(text)`. -/
  TerminalPrompt : String → Except GoError String
  /-- The error result of `provider.Store(creds)` for a profile. -/
  Store : String → Value → Option GoError
  /-- The error result of `NewKeyringSessions(keyring)`. -/
  NewKeyringSessions : Option GoError
  /-- The number returned by `sessions.Delete(profile)` (its error is dropped). -/
  Delete : String → Nat

/-- Lines 43-61 of `AddCommand`: the pair is stored and the cached sessions of
the profile are deleted; `tr` is the trace so far. -/
def AddCommand.store (w : AddWorld) (input : AddCommandInput) (tr : List Event)
    (accessKeyId secretKey : String) : Result :=
  let creds : Value := ⟨accessKeyId, secretKey, ""⟩
  match w.Store input.Profile creds with
  | some err => ⟨tr ++ [.Store input.Profile creds, .Fatalf err.msg []], .fatal⟩
  | none =>
    let tr := tr ++ [.Store input.Profile creds,
      .Printf "Added credentials to profile %q in vault" [input.Profile]]
    match w.NewKeyringSessions with
    | some err => ⟨tr ++ [.NewKeyringSessions, .Fatalf err.msg []], .fatal⟩
    | none =>
      let n := w.Delete input.Profile
      if n > 0 then
        ⟨tr ++ [.NewKeyringSessions, .Delete input.Profile,
          .Printf "Deleted %d existing sessions." [toString n]], .returned⟩
      else
        ⟨tr ++ [.NewKeyringSessions, .Delete input.Profile], .returned⟩

/-- The function `AddCommand(app, input)`. -/
def AddCommand (w : AddWorld) (input : AddCommandInput) : Result :=
  if input.FromEnv then
    let accessKeyId := w.Getenv "AWS_ACCESS_KEY_ID"
    if accessKeyId = "" then
      ⟨[.Fatalf "Missing value for AWS_ACCESS_KEY_ID" []], .fatal⟩
    else
      let secretKey := w.Getenv "AWS_SECRET_ACCESS_KEY"
      if secretKey = "" then
        ⟨[.Fatalf "Missing value for AWS_SECRET_ACCESS_KEY" []], .fatal⟩
      else
        AddCommand.store w input [] accessKeyId secretKey
  else
    match w.TerminalPrompt "Enter Access Key ID: " with
    | .error err =>
      ⟨[.TerminalPrompt "Enter Access Key ID: ", .Fatalf err.msg []], .fatal⟩
    | .ok accessKeyId =>
      match w.TerminalPrompt "Enter Secret Access Key: " with
      | .error err =>
        ⟨[.TerminalPrompt "Enter Access Key ID: ", .TerminalPrompt "Enter Secret Access Key: ",
          .Fatalf err.msg []], .fatal⟩
      | .ok secretKey =>
        AddCommand.store w input
          [.TerminalPrompt "Enter Access Key ID: ", .TerminalPrompt "Enter Secret Access Key: "]
          accessKeyId secretKey

/-! ## `LoginCommand` (`src/login.go`) -/

/-- The fields of `LoginCommandInput` read by the command. -/
structure LoginCommandInput where
  Profile : String
  UseStdout : Bool

/-- The answers of the collaborators of `LoginCommand` in one run. -/
structure LoginWorld where
  /-- The error result of `NewVaultProvider(keyring, profile, options)`. -/
  NewVaultProvider : String → Option GoError
  /-- The call `creds.Get()` on the credentials of a profile. -/
  Get : String → Except GoError Value
  /-- The call `json.Marshal` on the session map built from a credential value. -/
  Marshal : Value → Except GoError String
  /-- The error result of `http.NewRequest`. -/
  NewRequest : Option GoError
  /-- The call `http.DefaultClient.Do(req)` followed by `ioutil.ReadAll(resp.Body)`,
  for the query parameters `Action` and `Session`. -/
  Do : String → String → Except GoError String
  /-- The call `json.Unmarshal` into a string map. -/
  Unmarshal : String → Except GoError (String → Option String)
  /-- The library function `url.QueryEscape`. -/
  QueryEscape : String → String
  /-- The error result of `open.Run(url)`. -/
  openRun : String → Option GoError

/-- Lines 49-107 of `LoginCommand`: the sign-in token is fetched for the value
`val` and the login URL is printed or opened; `tr` is the trace so far. -/
def LoginCommand.signin (w : LoginWorld) (input : LoginCommandInput) (tr : List Event)
    (val : Value) : Result :=
  match w.Marshal val with
  | .error err => ⟨tr ++ [.Fatalf err.msg []], .fatal⟩
  | .ok jsonBytes =>
    match w.NewRequest with
    | some err => ⟨tr ++ [.Fatalf err.msg []], .fatal⟩
    | none =>
      let tr := tr ++ [.Do "getSigninToken" jsonBytes]
      match w.Do "getSigninToken" jsonBytes with
      | .error err => ⟨tr ++ [.Fatalf err.msg []], .fatal⟩
      | .ok body =>
        match w.Unmarshal body with
        | .error err => ⟨tr ++ [.Fatalf err.msg []], .fatal⟩
        | .ok respParsed =>
          match respParsed "SigninToken" with
          | none => ⟨tr ++ [.Fatalf "Expected a response with SigninToken" []], .fatal⟩
          | some signinToken =>
            let loginUrl :=
              "https://signin.aws.amazon.com/federation?Action=login&Issuer=aws-vault&Destination="
                ++ w.QueryEscape "https://console.aws.amazon.com/"
                ++ "&SigninToken=" ++ w.QueryEscape signinToken
            if input.UseStdout then
              ⟨tr ++ [.Println loginUrl], .returned⟩
            else
              match w.openRun loginUrl with
              | some err =>
                ⟨tr ++ [.openRun loginUrl, .Println err.msg, .Println loginUrl], .returned⟩
              | none => ⟨tr ++ [.openRun loginUrl], .returned⟩

/-- The function `LoginCommand(app, input)`. -/
def LoginCommand (w : LoginWorld) (input : LoginCommandInput) : Result :=
  match w.NewVaultProvider input.Profile with
  | some err => ⟨[.NewVaultProvider input.Profile, .Fatalf err.msg []], .fatal⟩
  | none =>
    match w.Get input.Profile with
    | .error err =>
      if err.awsCode = some "NoCredentialProviders" then
        ⟨[.NewVaultProvider input.Profile, .Get input.Profile,
          .Fatalf "No credentials found for profile %q" [input.Profile]], .fatal⟩
      else
        ⟨[.NewVaultProvider input.Profile, .Get input.Profile, .Fatalf err.msg []], .fatal⟩
    | .ok val =>
      LoginCommand.signin w input [.NewVaultProvider input.Profile, .Get input.Profile] val

/-! ## Vocabulary of the statements -/

/-- The test of `Unset` on an entry: `s` begins with `key` followed by `=`. -/
def hasKey (key : String) (s : String) : Bool :=
  HasPrefix s (key ++ "=")

/-- Each key occurs at most once: for every key, at most one entry begins with
the key followed by `=`. -/
def UniqueKeys (e : environ) : Prop :=
  ∀ key : String, e.countP (hasKey key) ≤ 1

/-- The slice left by `Unset`, as a function of the list: the first entry that
begins with `key=` is overwritten by the last entry and the list is cut by
one.  It is a device of the proofs; `Unset_eq` relates it to the loop. -/
def swapRemove (key : String) : List String → List String
  | [] => []
  | s :: rest =>
    if hasKey key s then
      match rest.getLast? with
      | none => []
      | some last => last :: rest.dropLast
    else s :: swapRemove key rest

/-- A `Fatalf` call mentions the string `x`: `x` occurs in the format string or
is one of the arguments. -/
def Mentions (format : String) (args : List String) (x : String) : Prop :=
  x.data <:+: format.data ∨ x ∈ args

/-- The calls to `sessions.Delete` in a trace, in order. -/
def deletions (tr : List Event) : List String :=
  tr.filterMap fun ev =>
    match ev with
    | .Delete p => some p
    | _ => none

/-- The values written by the calls to `provider.Store` in a trace, in order. -/
def stores (tr : List Event) : List (String × Value) :=
  tr.filterMap fun ev =>
    match ev with
    | .Store p c => some (p, c)
    | _ => none

/-- Two keys are apart when neither `k1=` nor `k2=` is a prefix of the other, so
that no entry begins with both. -/
def keysApart (k1 k2 : String) : Bool :=
  !HasPrefix (k1 ++ "=") (k2 ++ "=") && !HasPrefix (k2 ++ "=") (k1 ++ "=")

/-- The name of the variable of an entry: the characters before the first `=`. -/
def keyName (s : String) : List Char :=
  s.data.takeWhile (fun c => c != '=')

/-! ## Sample runs

The worlds below are the concrete runs at which the statements are evaluated. -/

/-- A run of `exec` in which every collaborator succeeds: the ambient
environment of the test of the specification, a session with a token, no
region in the profile, a sub-process that ends with status 0. -/
def quietExecWorld : ExecWorld where
  Getenv := fun _ => ""
  Environ := ["HOME=/root", "AWS_ACCESS_KEY_ID=old", "AWS_PROFILE=foo"]
  Retrieve := fun _ => .ok ⟨"AKIAMASTER", "mastersecret", ""⟩
  NewVaultCredentials := fun _ => none
  Get := fun _ => .ok ⟨"ASIASESSION", "sessionsecret", "token"⟩
  startCredentialsServer := none
  parseProfiles := .ok (fun _ _ => none)
  Run := fun _ _ _ => none

/-- The input of `aws-vault exec dev env`. -/
def devExec : ExecCommandInput :=
  ⟨"dev", "env", [], false, false⟩

/-- The input of `aws-vault exec --server dev env`. -/
def devServer : ExecCommandInput :=
  ⟨"dev", "env", [], true, false⟩

/-- The variable `AWS_VAULT` is already set to `prod`. -/
def nestedWorld : ExecWorld :=
  { quietExecWorld with Getenv := fun key => if key = "AWS_VAULT" then "prod" else "" }

/-- The sub-process ends with exit status 3. -/
def exitThreeWorld : ExecWorld :=
  { quietExecWorld with Run := fun _ _ _ => some ⟨some 3, "exit status 3"⟩ }

/-- The ambient environment carries a session token of an earlier session. -/
def staleTokenWorld : ExecWorld :=
  { quietExecWorld with
    Environ := ["HOME=/root", "AWS_ACCESS_KEY_ID=old", "AWS_PROFILE=foo",
      "AWS_SESSION_TOKEN=stale", "AWS_SECURITY_TOKEN=stale"] }

/-- The ambient environment carries the token of the session that the
credential chain returns again. -/
def sameTokenWorld : ExecWorld :=
  { quietExecWorld with Environ := ["HOME=/root", "AWS_SESSION_TOKEN=token"] }

/-- The credential chain fails with an error that is not a provider error. -/
def brokenChainWorld : ExecWorld :=
  { quietExecWorld with Get := fun _ => .error ⟨none, "keychain locked"⟩ }

/-- The credential chain fails with the provider error `NoCredentialProviders`. -/
def noProvidersWorld : ExecWorld :=
  { quietExecWorld with
    Get := fun _ => .error ⟨some "NoCredentialProviders", "NoCredentialProviders: no valid providers in chain"⟩ }

/-- A run of `login` in which every collaborator succeeds. -/
def quietLoginWorld : LoginWorld where
  NewVaultProvider := fun _ => none
  Get := fun _ => .ok ⟨"ASIASESSION", "sessionsecret", "token"⟩
  Marshal := fun _ => .ok "session"
  NewRequest := none
  Do := fun _ _ => .ok "body"
  Unmarshal := fun _ => .ok (fun key => if key = "SigninToken" then some "signin" else none)
  QueryEscape := fun text => text
  openRun := fun _ => none

/-- The input of `aws-vault login dev`. -/
def devLogin : LoginCommandInput :=
  ⟨"dev", false⟩

/-- The credential chain of `login` fails with an error that is not a provider
error. -/
def brokenLoginWorld : LoginWorld :=
  { quietLoginWorld with Get := fun _ => .error ⟨none, "keychain locked"⟩ }

/-- The credential chain of `login` fails with `NoCredentialProviders`. -/
def noProvidersLoginWorld : LoginWorld :=
  { quietLoginWorld with
    Get := fun _ => .error ⟨some "NoCredentialProviders", "NoCredentialProviders: no valid providers in chain"⟩ }

/-- A run of `add --env` in which both variables are set, the keyring accepts
the pair and two cached sessions exist. -/
def quietAddWorld : AddWorld where
  Getenv := fun key =>
    if key = "AWS_ACCESS_KEY_ID" then "AKIAMASTER"
    else if key = "AWS_SECRET_ACCESS_KEY" then "mastersecret" else ""
  TerminalPrompt := fun _ => .ok "typed"
  Store := fun _ _ => none
  NewKeyringSessions := none
  Delete := fun _ => 2

/-- The input of `aws-vault add --env dev`. -/
def devAddEnv : AddCommandInput :=
  ⟨"dev", true⟩

/-- The pair is stored, and `NewKeyringSessions` then fails. -/
def noSessionsWorld : AddWorld :=
  { quietAddWorld with NewKeyringSessions := some ⟨none, "cannot parse config"⟩ }

/-- The variable `AWS_SECRET_ACCESS_KEY` is not set. -/
def missingSecretWorld : AddWorld :=
  { quietAddWorld with Getenv := fun key => if key = "AWS_ACCESS_KEY_ID" then "AKIAMASTER" else "" }

/-! ## The loop of `Unset` -/

theorem getElem?_length_append_cons (pre : List String) (s : String) (rest : List String) :
    (pre ++ s :: rest)[pre.length]? = some s := by
  rw [List.getElem?_append_right (Nat.le_refl _)]
  simp

theorem getElem?_last_concat (l : List String) (last : String) :
    (l ++ [last])[(l ++ [last]).length - 1]? = some last := by
  have h : (l ++ [last]).length - 1 = l.length := by simp
  rw [h]
  exact getElem?_length_append_cons l last []

theorem Unset.loop_eq (key : String) (suf : List String) :
    ∀ pre : List String,
      environ.Unset.loop key (pre ++ suf) pre.length suf.length
        = some (pre ++ swapRemove key suf) := by
  induction suf with
  | nil => intro pre; simp [environ.Unset.loop, swapRemove]
  | cons s rest ih =>
    intro pre
    have hget := getElem?_length_append_cons pre s rest
    by_cases hp : HasPrefix s (key ++ "=") = true
    · have hk : hasKey key s = true := hp
      rcases List.eq_nil_or_concat rest with hr | ⟨init, last, hr⟩
      · subst hr
        have hlast := getElem?_last_concat pre s
        simp only [List.length_cons, List.length_nil, environ.Unset.loop, hget, hp, if_true,
          hlast, swapRemove, List.getLast?_nil, hk]
        simp
      · rw [List.concat_eq_append] at hr
        subst hr
        have hlast : (pre ++ s :: (init ++ [last]))[(pre ++ s :: (init ++ [last])).length - 1]?
            = some last := by
          have h := getElem?_last_concat (pre ++ s :: init) last
          simpa using h
        simp only [List.length_cons, environ.Unset.loop, hget, hp, if_true,
          hlast, swapRemove, List.getLast?_concat, List.getLast?_append, List.dropLast_concat, hk]
        simp [List.take_append_eq_append_take, List.dropLast_concat]
    · have hk : ¬ hasKey key s = true := hp
      have h := ih (pre ++ [s])
      simp only [List.append_assoc, List.singleton_append, List.length_append,
        List.length_singleton] at h
      simp only [List.length_cons, environ.Unset.loop, hget, hp, swapRemove, hk]
      simpa using h

/-- The method `Unset` never indexes out of range, and leaves `swapRemove`. -/
theorem Unset_eq (e : environ) (key : String) :
    environ.Unset e key = some (swapRemove key e) := by
  have h := Unset.loop_eq key e []
  simpa [environ.Unset] using h

theorem Set_eq (e : environ) (key val : String) :
    environ.Set e key val = some (swapRemove key e ++ [key ++ "=" ++ val]) := by
  simp [environ.Set, Unset_eq]

theorem swapRemove_perm (key : String) (e : List String) :
    (swapRemove key e).Perm (e.eraseP (hasKey key)) := by
  induction e with
  | nil => simp [swapRemove]
  | cons s rest ih =>
    by_cases hk : hasKey key s = true
    · rcases List.eq_nil_or_concat rest with hr | ⟨init, last, hr⟩
      · subst hr
        simp [swapRemove, hk]
      · rw [List.concat_eq_append] at hr
        subst hr
        simp only [swapRemove, hk, if_true, List.getLast?_concat, List.dropLast_concat,
          List.eraseP_cons_of_pos]
        exact (List.perm_append_singleton last init).symm
    · have hk2 : hasKey key s = false := by simpa using hk
      rw [List.eraseP_cons_of_neg hk]
      simp only [swapRemove, hk2]
      exact List.Perm.cons s ih

theorem swapRemove_of_absent (key : String) (e : List String)
    (h : ∀ s ∈ e, hasKey key s = false) : swapRemove key e = e := by
  induction e with
  | nil => simp [swapRemove]
  | cons s rest ih =>
    have hs : hasKey key s = false := h s (by simp)
    have hr : ∀ t ∈ rest, hasKey key t = false := fun t ht => h t (by simp [ht])
    simp [swapRemove, hs, ih hr]

theorem mem_swapRemove (key : String) (e : List String) (s : String)
    (h : s ∈ swapRemove key e) : s ∈ e :=
  (List.eraseP_sublist e).subset ((swapRemove_perm key e).mem_iff.mp h)

theorem mem_swapRemove_of_other (key : String) (e : List String) (s : String)
    (hs : hasKey key s = false) (h : s ∈ e) : s ∈ swapRemove key e := by
  apply (swapRemove_perm key e).mem_iff.mpr
  exact (List.mem_eraseP_of_neg (by simp [hs])).mpr h

theorem countP_swapRemove_le (key : String) (q : String → Bool) (e : List String) :
    (swapRemove key e).countP q ≤ e.countP q := by
  rw [(swapRemove_perm key e).countP_eq q]
  exact List.Sublist.countP_le q (List.eraseP_sublist e)

theorem countP_eraseP_self (p : String → Bool) (e : List String) :
    (e.eraseP p).countP p = e.countP p - 1 := by
  induction e with
  | nil => simp
  | cons s rest ih =>
    by_cases hp : p s = true
    · simp [hp]
    · have hpos : p s = false := by simpa using hp
      by_cases hex : ∃ a ∈ rest, p a = true
      · have : 0 < rest.countP p := List.countP_pos_iff.mpr hex
        simp [hp, ih, List.countP_cons_of_neg]
      · simp [hp, ih, List.countP_cons_of_neg]

theorem countP_swapRemove_self (key : String) (e : List String) :
    (swapRemove key e).countP (hasKey key) = e.countP (hasKey key) - 1 := by
  rw [(swapRemove_perm key e).countP_eq, countP_eraseP_self]

theorem filter_eraseP_other (p : String → Bool) (e : List String) :
    (e.eraseP p).filter (fun s => !p s) = e.filter (fun s => !p s) := by
  induction e with
  | nil => simp
  | cons s rest ih =>
    by_cases hp : p s = true
    · simp [hp]
    · have hp2 : p s = false := by simpa using hp
      rw [List.eraseP_cons_of_neg hp]
      simp [hp2, ih]

theorem hasKey_longer_key (k x v : String) (hx : x ≠ "") (heq : '=' ∉ x.data) :
    hasKey k (k ++ x ++ "=" ++ v) = false := by
  have hne : x.data ≠ [] := by
    intro h
    apply hx
    cases x
    simp_all
  obtain ⟨c, cs, hcs⟩ := List.exists_cons_of_ne_nil hne
  have hc : c ≠ '=' := by
    intro h
    apply heq
    rw [hcs, h]
    simp
  rw [Bool.eq_false_iff]
  intro h
  unfold hasKey HasPrefix at h
  rw [List.isPrefixOf_iff_prefix] at h
  simp only [String.data_append, List.append_assoc, List.prefix_append_right_inj, hcs] at h
  simp only [List.cons_append, List.cons_prefix_cons] at h
  exact hc h.1.symm

/-! ## The environment slice: `Unset` and `Set` -/

/-- C10.  For every environment and key, `Unset` never indexes out of range
(it returns a slice); what it leaves is, up to order, the environment with its
first entry beginning with `key=` erased, so at most one entry is removed;
the entries that do not begin with `key=` are the same multiset before and
after; an entry whose key extends `key` by a non-empty string without `=` is
kept; and when no entry begins with `key=` the environment is unchanged, order
included. -/
theorem Unset_frame (e : environ) (key : String) :
    ∃ e1 : environ, environ.Unset e key = some e1 ∧
      e1.Perm (e.eraseP (hasKey key)) ∧
      e1.length ≤ e.length ∧ e.length ≤ e1.length + 1 ∧
      (e1.filter (fun s => !hasKey key s)).Perm (e.filter (fun s => !hasKey key s)) ∧
      (∀ x v : String, x ≠ "" → '=' ∉ x.data →
        key ++ x ++ "=" ++ v ∈ e → key ++ x ++ "=" ++ v ∈ e1) ∧
      ((∀ s ∈ e, hasKey key s = false) → e1 = e) := by
  refine ⟨swapRemove key e, Unset_eq e key, swapRemove_perm key e, ?_, ?_, ?_, ?_, ?_⟩
  · rw [(swapRemove_perm key e).length_eq]
    exact List.length_eraseP_le e
  · rw [(swapRemove_perm key e).length_eq, List.length_eraseP]
    split <;> omega
  · have h := (swapRemove_perm key e).filter (fun s => !hasKey key s)
    rw [filter_eraseP_other] at h
    exact h
  · intro x v hx heq hmem
    exact mem_swapRemove_of_other key e _ (hasKey_longer_key key x v hx heq) hmem
  · exact swapRemove_of_absent key e

/-- The instance of `Unset_frame` named in C10: `AWS_PROFILE_X=1` is kept when
`AWS_PROFILE` is unset, also when the match is the last entry, and the empty
environment is left empty. -/
theorem Unset_frame_examples :
    environ.Unset ["AWS_PROFILE_X=1", "AWS_PROFILE=foo"] "AWS_PROFILE"
        = some ["AWS_PROFILE_X=1"] ∧
      environ.Unset ["AWS_PROFILE=foo", "AWS_PROFILE_X=1", "HOME=/root"] "AWS_PROFILE"
        = some ["HOME=/root", "AWS_PROFILE_X=1"] ∧
      environ.Unset [] "AWS_PROFILE" = some [] := by
  decide

/-- C4, at an environment with a duplicated key: `Unset` removes the first
entry beginning with `AWS_PROFILE=` and leaves the second one, so the variable
is still set afterwards. -/
theorem Unset_leaves_duplicate :
    environ.Unset ["AWS_PROFILE=foo", "HOME=/root", "AWS_PROFILE=bar"] "AWS_PROFILE"
        = some ["AWS_PROFILE=bar", "HOME=/root"] ∧
      hasKey "AWS_PROFILE" "AWS_PROFILE=bar" = true := by
  decide

/-- When at most one entry begins with `key=`, no entry does after `Unset`. -/
theorem Unset_of_unique (e : environ) (key : String) (h : e.countP (hasKey key) ≤ 1) :
    ∃ e1 : environ, environ.Unset e key = some e1 ∧ ∀ s ∈ e1, hasKey key s = false := by
  refine ⟨swapRemove key e, Unset_eq e key, ?_⟩
  have h0 : (swapRemove key e).countP (hasKey key) = 0 := by
    rw [countP_swapRemove_self]
    omega
  intro s hs
  have := List.countP_eq_zero.mp h0 s hs
  simpa using this

/-- C5, at an environment with a duplicated key: after `Set` two entries begin
with `AWS_PROFILE=`, the one left over by `Unset` and the new one. -/
theorem Set_leaves_duplicate :
    environ.Set ["AWS_PROFILE=foo", "HOME=/root", "AWS_PROFILE=bar"] "AWS_PROFILE" "dev"
        = some ["AWS_PROFILE=bar", "HOME=/root", "AWS_PROFILE=dev"] ∧
      hasKey "AWS_PROFILE" "AWS_PROFILE=bar" = true ∧
      hasKey "AWS_PROFILE" "AWS_PROFILE=dev" = true := by
  decide

theorem hasKey_self (key val : String) : hasKey key (key ++ "=" ++ val) = true := by
  unfold hasKey HasPrefix
  rw [List.isPrefixOf_iff_prefix]
  simp only [String.data_append, List.append_assoc]
  exact ⟨val.data, by simp⟩

/-- When at most one entry begins with `key=`, after `Set` the entry `key=val` is
in the environment and is the only entry beginning with `key=`. -/
theorem Set_of_unique (e : environ) (key val : String) (h : e.countP (hasKey key) ≤ 1) :
    ∃ e1 : environ, environ.Set e key val = some e1 ∧ key ++ "=" ++ val ∈ e1 ∧
      e1.countP (hasKey key) = 1 := by
  refine ⟨swapRemove key e ++ [key ++ "=" ++ val], Set_eq e key val, by simp, ?_⟩
  rw [List.countP_append, countP_swapRemove_self]
  simp [hasKey_self]
  omega

/-! ## `ExecCommand` -/

/-- C3.  When `AWS_VAULT` is set to a non-empty value, the run of `ExecCommand`
is the single call to `Fatalf` with the nesting message and the command ends
there: nothing is retrieved from the keyring, no credential is resolved, no
server is started and no sub-process is launched. -/
theorem ExecCommand_refuses_nesting (w : ExecWorld) (input : ExecCommandInput)
    (h : w.Getenv "AWS_VAULT" ≠ "") :
    ExecCommand w input =
      ⟨[.Fatalf "aws-vault sessions should be nested with care, unset $AWS_VAULT to force" []],
        .fatal⟩ := by
  simp [ExecCommand, h]

/-- Witness of `ExecCommand_refuses_nesting`: `AWS_VAULT=prod` in the ambient
environment. -/
theorem ExecCommand_refuses_nesting_witness :
    nestedWorld.Getenv "AWS_VAULT" ≠ "" ∧
      ExecCommand nestedWorld devExec =
        ⟨[.Fatalf "aws-vault sessions should be nested with care, unset $AWS_VAULT to force" []],
          .fatal⟩ :=
  ⟨by decide, ExecCommand_refuses_nesting nestedWorld devExec (by decide)⟩

/-- C6, at a sub-process that ends with exit status 3: `ExecCommand` reports the
error with `Errorf` and returns to its caller; `os.Exit` is not called. -/
theorem ExecCommand_drops_exit_status :
    exitThreeWorld.Run "env" []
        ["HOME=/root", "AWS_VAULT=dev", "AWS_ACCESS_KEY_ID=ASIASESSION",
          "AWS_SECRET_ACCESS_KEY=sessionsecret", "AWS_SESSION_TOKEN=token",
          "AWS_SECURITY_TOKEN=token"] = some ⟨some 3, "exit status 3"⟩ ∧
      ExecCommand exitThreeWorld devExec =
        ⟨[.NewVaultCredentials "dev", .Get "dev", .parseProfiles,
          .Println "Writing temporary credentials to ENV",
          .Run "env" [] ["HOME=/root", "AWS_VAULT=dev", "AWS_ACCESS_KEY_ID=ASIASESSION",
            "AWS_SECRET_ACCESS_KEY=sessionsecret", "AWS_SESSION_TOKEN=token",
            "AWS_SECURITY_TOKEN=token"],
          .Errorf "exit status 3" []], .returned⟩ := by
  decide

theorem launch_outcome (w : ExecWorld) (input : ExecCommandInput) (tr : List Event)
    (env : environ) : (ExecCommand.launch w input tr env).outcome = .returned := by
  unfold ExecCommand.launch
  cases w.Run input.Command input.Args env <;> simp

/-- No run of `ExecCommand` ends in `os.Exit`, whatever the sub-process does. -/
theorem ExecCommand_never_exits (w : ExecWorld) (input : ExecCommandInput) (status : Nat) :
    (ExecCommand w input).outcome ≠ .exited status := by
  unfold ExecCommand
  split
  · simp
  · split
    · rename_i r hr
      unfold ExecCommand.resolve at hr
      repeat' split at hr
      all_goals first
        | (injection hr with hr; subst hr; simp)
        | (exact nomatch hr)
    · split
      · simp
      · split
        · simp
        · rw [launch_outcome]; simp

/-! ## Errors of the credential chain -/

/-- C7 as stated fails when the chain returns an error that is not
`NoCredentialProviders`: for the profile `dev` and the error `keychain locked`,
both commands call `Fatalf` with the error message alone, and the profile name
occurs neither in the format string nor among the arguments. -/
theorem chain_error_message_omits_profile :
    ExecCommand brokenChainWorld devExec =
        ⟨[.NewVaultCredentials "dev", .Get "dev", .Fatalf "keychain locked" []], .fatal⟩ ∧
      LoginCommand brokenLoginWorld devLogin =
        ⟨[.NewVaultProvider "dev", .Get "dev", .Fatalf "keychain locked" []], .fatal⟩ ∧
      ¬ Mentions "keychain locked" [] "dev" := by
  refine ⟨by decide, by decide, ?_⟩
  unfold Mentions
  decide

/-- C7, amended.  When the credential chain returns the error `err`, both
`ExecCommand` (outside the no-session path) and `LoginCommand` end in one call
to `Fatalf`: with the format `No credentials found for profile %q` and the
profile name as its argument when `err` is a provider error with code
`NoCredentialProviders`, and otherwise with the message of `err` as the format
and no argument, so that nothing but the message of `err` is reported. -/
theorem chain_error_message (we : ExecWorld) (ie : ExecCommandInput) (wl : LoginWorld)
    (il : LoginCommandInput) (err : GoError)
    (hvault : we.Getenv "AWS_VAULT" = "") (hsession : ie.NoSession = false)
    (hcreds : we.NewVaultCredentials ie.Profile = none)
    (hget : we.Get ie.Profile = .error err)
    (hprovider : wl.NewVaultProvider il.Profile = none)
    (hgetl : wl.Get il.Profile = .error err) :
    ExecCommand we ie =
        ⟨[.NewVaultCredentials ie.Profile, .Get ie.Profile,
          if err.awsCode = some "NoCredentialProviders"
          then .Fatalf "No credentials found for profile %q" [ie.Profile]
          else .Fatalf err.msg []], .fatal⟩ ∧
      LoginCommand wl il =
        ⟨[.NewVaultProvider il.Profile, .Get il.Profile,
          if err.awsCode = some "NoCredentialProviders"
          then .Fatalf "No credentials found for profile %q" [il.Profile]
          else .Fatalf err.msg []], .fatal⟩ := by
  constructor
  · unfold ExecCommand ExecCommand.resolve
    simp only [hvault, hsession, hcreds, hget]
    by_cases hc : err.awsCode = some "NoCredentialProviders" <;> simp [hc]
  · unfold LoginCommand
    simp only [hprovider, hgetl]
    by_cases hc : err.awsCode = some "NoCredentialProviders" <;> simp [hc]

/-- Witness of `chain_error_message`: the chain answers `NoCredentialProviders`
for the profile `dev`. -/
theorem chain_error_message_witness :
    noProvidersWorld.Getenv "AWS_VAULT" = "" ∧ devExec.NoSession = false ∧
      noProvidersWorld.NewVaultCredentials "dev" = none ∧
      noProvidersLoginWorld.NewVaultProvider "dev" = none ∧
      ExecCommand noProvidersWorld devExec =
        ⟨[.NewVaultCredentials "dev", .Get "dev",
          .Fatalf "No credentials found for profile %q" ["dev"]], .fatal⟩ ∧
      LoginCommand noProvidersLoginWorld devLogin =
        ⟨[.NewVaultProvider "dev", .Get "dev",
          .Fatalf "No credentials found for profile %q" ["dev"]], .fatal⟩ :=
  ⟨rfl, rfl, rfl, rfl,
    chain_error_message noProvidersWorld devExec noProvidersLoginWorld devLogin
      ⟨some "NoCredentialProviders", "NoCredentialProviders: no valid providers in chain"⟩
      rfl rfl rfl rfl rfl rfl⟩

/-! ## `AddCommand` -/

theorem deletions_append (a b : List Event) : deletions (a ++ b) = deletions a ++ deletions b := by
  simp [deletions]

theorem stores_append (a b : List Event) : stores (a ++ b) = stores a ++ stores b := by
  simp [stores]

/-- The run of lines 43-61 after a trace without `Store` and `Delete`. -/
theorem store_run (w : AddWorld) (input : AddCommandInput) (tr : List Event)
    (accessKeyId secretKey : String) (hs : stores tr = []) (hd : deletions tr = []) :
    stores (AddCommand.store w input tr accessKeyId secretKey).trace
        = [(input.Profile, ⟨accessKeyId, secretKey, ""⟩)] ∧
      (w.Store input.Profile ⟨accessKeyId, secretKey, ""⟩ = none →
        w.NewKeyringSessions = none →
        ∃ post, (AddCommand.store w input tr accessKeyId secretKey).trace
            = tr ++ .Store input.Profile ⟨accessKeyId, secretKey, ""⟩ :: post ∧
          deletions post = [input.Profile] ∧
          (AddCommand.store w input tr accessKeyId secretKey).outcome = .returned) ∧
      (w.Store input.Profile ⟨accessKeyId, secretKey, ""⟩ ≠ none →
        deletions (AddCommand.store w input tr accessKeyId secretKey).trace = []) ∧
      (w.NewKeyringSessions ≠ none →
        deletions (AddCommand.store w input tr accessKeyId secretKey).trace = []) := by
  cases hst : w.Store input.Profile ⟨accessKeyId, secretKey, ""⟩ with
  | some err =>
    simp only [AddCommand.store, hst, stores_append, deletions_append, hs, hd]
    simp [stores, deletions]
  | none =>
    cases hks : w.NewKeyringSessions with
    | some err =>
      simp only [AddCommand.store, hst, hks, stores_append, deletions_append, hs, hd]
      simp [stores, deletions]
    | none =>
      by_cases hn : w.Delete input.Profile > 0
      · simp only [AddCommand.store, hst, hks, hn, if_true, stores_append, deletions_append,
          hs, hd]
        simp [stores, deletions]
      · simp only [AddCommand.store, hst, hks, hn, if_false, stores_append, deletions_append,
          hs, hd]
        simp [stores, deletions]

/-- C8 as stated fails when `NewKeyringSessions` returns an error after the
pair has been stored: the run ends in `Fatalf` and `sessions.Delete` is never
called. -/
theorem AddCommand_stored_without_deletion :
    noSessionsWorld.Store "dev" ⟨"AKIAMASTER", "mastersecret", ""⟩ = none ∧
      AddCommand noSessionsWorld devAddEnv =
        ⟨[.Store "dev" ⟨"AKIAMASTER", "mastersecret", ""⟩,
          .Printf "Added credentials to profile %q in vault" ["dev"],
          .NewKeyringSessions, .Fatalf "cannot parse config" []], .fatal⟩ ∧
      deletions (AddCommand noSessionsWorld devAddEnv).trace = [] := by
  decide

/-- C8, amended.  In every run of `AddCommand` on profile `P`, with credentials
from the prompt or from the environment: when a pair is handed to
`provider.Store`, the store succeeds and `NewKeyringSessions` succeeds, the
trace has no deletion before the store and exactly one after it, the deletion
of the sessions of `P`, and the command then returns; when no store succeeds,
or when `NewKeyringSessions` fails, no deletion is performed. -/
theorem AddCommand_deletes_sessions (w : AddWorld) (input : AddCommandInput) :
    (∀ c : Value, (input.Profile, c) ∈ stores (AddCommand w input).trace →
        w.Store input.Profile c = none → w.NewKeyringSessions = none →
        ∃ pre post, (AddCommand w input).trace = pre ++ .Store input.Profile c :: post ∧
          deletions pre = [] ∧ deletions post = [input.Profile] ∧
          (AddCommand w input).outcome = .returned) ∧
      ((∀ c : Value, (input.Profile, c) ∈ stores (AddCommand w input).trace →
          w.Store input.Profile c ≠ none) →
        deletions (AddCommand w input).trace = []) ∧
      (w.NewKeyringSessions ≠ none → deletions (AddCommand w input).trace = []) := by
  have key : ∀ (tr : List Event) (a b : String), stores tr = [] → deletions tr = [] →
      (∀ c : Value, (input.Profile, c) ∈ stores (AddCommand.store w input tr a b).trace →
        w.Store input.Profile c = none → w.NewKeyringSessions = none →
        ∃ pre post, (AddCommand.store w input tr a b).trace
            = pre ++ .Store input.Profile c :: post ∧
          deletions pre = [] ∧ deletions post = [input.Profile] ∧
          (AddCommand.store w input tr a b).outcome = .returned) ∧
      ((∀ c : Value, (input.Profile, c) ∈ stores (AddCommand.store w input tr a b).trace →
          w.Store input.Profile c ≠ none) →
        deletions (AddCommand.store w input tr a b).trace = []) ∧
      (w.NewKeyringSessions ≠ none →
        deletions (AddCommand.store w input tr a b).trace = []) := by
    intro tr a b hs hd
    obtain ⟨h1, h2, h3, h4⟩ := store_run w input tr a b hs hd
    refine ⟨?_, ?_, h4⟩
    · intro c hc hst hks
      rw [h1] at hc
      simp only [List.mem_singleton, Prod.mk.injEq, true_and] at hc
      subst hc
      obtain ⟨post, hp1, hp2, hp3⟩ := h2 hst hks
      exact ⟨tr, post, hp1, hd, hp2, hp3⟩
    · intro hall
      apply h3
      apply hall
      rw [h1]
      simp
  by_cases hf : input.FromEnv = true
  · by_cases ha : w.Getenv "AWS_ACCESS_KEY_ID" = ""
    · simp [AddCommand, hf, ha, stores, deletions]
    · by_cases hb : w.Getenv "AWS_SECRET_ACCESS_KEY" = ""
      · simp [AddCommand, hf, ha, hb, stores, deletions]
      · have hrun : AddCommand w input = AddCommand.store w input []
            (w.Getenv "AWS_ACCESS_KEY_ID") (w.Getenv "AWS_SECRET_ACCESS_KEY") := by
          simp [AddCommand, hf, ha, hb]
        rw [hrun]
        exact key [] _ _ rfl rfl
  · cases hp1 : w.TerminalPrompt "Enter Access Key ID: " with
    | error err => simp [AddCommand, hf, hp1, stores, deletions]
    | ok a =>
      cases hp2 : w.TerminalPrompt "Enter Secret Access Key: " with
      | error err => simp [AddCommand, hf, hp1, hp2, stores, deletions]
      | ok b =>
        have hrun : AddCommand w input = AddCommand.store w input
            [.TerminalPrompt "Enter Access Key ID: ", .TerminalPrompt "Enter Secret Access Key: "]
            a b := by
          simp [AddCommand, hf, hp1, hp2]
        rw [hrun]
        exact key _ _ _ rfl rfl

/-- Witness of `AddCommand_deletes_sessions`: `add --env dev` with both
variables set stores the pair and then deletes the sessions of `dev`. -/
theorem AddCommand_deletes_sessions_witness :
    AddCommand quietAddWorld devAddEnv =
        ⟨[.Store "dev" ⟨"AKIAMASTER", "mastersecret", ""⟩,
          .Printf "Added credentials to profile %q in vault" ["dev"],
          .NewKeyringSessions, .Delete "dev",
          .Printf "Deleted %d existing sessions." ["2"]], .returned⟩ ∧
      ∃ pre post, (AddCommand quietAddWorld devAddEnv).trace
          = pre ++ .Store "dev" ⟨"AKIAMASTER", "mastersecret", ""⟩ :: post ∧
        deletions pre = [] ∧ deletions post = ["dev"] ∧
        (AddCommand quietAddWorld devAddEnv).outcome = .returned :=
  ⟨by decide,
    (AddCommand_deletes_sessions quietAddWorld devAddEnv).1
      ⟨"AKIAMASTER", "mastersecret", ""⟩ (by decide) rfl rfl⟩

/-- C9.  In a run of `AddCommand` with `FromEnv` set: when `AWS_ACCESS_KEY_ID` is
empty the run is the single call `Fatalf("Missing value for AWS_ACCESS_KEY_ID")`;
when it is set and `AWS_SECRET_ACCESS_KEY` is empty the run is the single call
`Fatalf("Missing value for AWS_SECRET_ACCESS_KEY")`; in both cases nothing is
handed to the keyring and no session is deleted; and every pair handed to
`provider.Store` has a non-empty access key id and a non-empty secret key. -/
theorem AddCommand_fromEnv (w : AddWorld) (input : AddCommandInput)
    (h : input.FromEnv = true) :
    (w.Getenv "AWS_ACCESS_KEY_ID" = "" →
        AddCommand w input = ⟨[.Fatalf "Missing value for AWS_ACCESS_KEY_ID" []], .fatal⟩) ∧
      (w.Getenv "AWS_ACCESS_KEY_ID" ≠ "" → w.Getenv "AWS_SECRET_ACCESS_KEY" = "" →
        AddCommand w input
          = ⟨[.Fatalf "Missing value for AWS_SECRET_ACCESS_KEY" []], .fatal⟩) ∧
      (w.Getenv "AWS_ACCESS_KEY_ID" = "" ∨ w.Getenv "AWS_SECRET_ACCESS_KEY" = "" →
        stores (AddCommand w input).trace = [] ∧ deletions (AddCommand w input).trace = [] ∧
          (AddCommand w input).outcome = .fatal) ∧
      (∀ (p : String) (c : Value), (p, c) ∈ stores (AddCommand w input).trace →
        c.AccessKeyID ≠ "" ∧ c.SecretAccessKey ≠ "") := by
  by_cases ha : w.Getenv "AWS_ACCESS_KEY_ID" = ""
  · simp [AddCommand, h, ha, stores, deletions]
  · by_cases hb : w.Getenv "AWS_SECRET_ACCESS_KEY" = ""
    · simp [AddCommand, h, ha, hb, stores, deletions]
    · have hrun : AddCommand w input = AddCommand.store w input []
          (w.Getenv "AWS_ACCESS_KEY_ID") (w.Getenv "AWS_SECRET_ACCESS_KEY") := by
        simp [AddCommand, h, ha, hb]
      have hst := (store_run w input [] (w.Getenv "AWS_ACCESS_KEY_ID")
        (w.Getenv "AWS_SECRET_ACCESS_KEY") rfl rfl).1
      rw [hrun, hst]
      refine ⟨fun h0 => absurd h0 ha, fun _ h0 => absurd h0 hb, ?_, ?_⟩
      · intro h0
        rcases h0 with h0 | h0
        · exact absurd h0 ha
        · exact absurd h0 hb
      · intro p c hc
        simp only [List.mem_singleton, Prod.mk.injEq] at hc
        rw [hc.2]
        exact ⟨ha, hb⟩

/-- Witness of `AddCommand_fromEnv`: `add --env dev` with `AWS_SECRET_ACCESS_KEY`
unset. -/
theorem AddCommand_fromEnv_witness :
    devAddEnv.FromEnv = true ∧ missingSecretWorld.Getenv "AWS_ACCESS_KEY_ID" ≠ "" ∧
      missingSecretWorld.Getenv "AWS_SECRET_ACCESS_KEY" = "" ∧
      AddCommand missingSecretWorld devAddEnv
        = ⟨[.Fatalf "Missing value for AWS_SECRET_ACCESS_KEY" []], .fatal⟩ :=
  ⟨rfl, by decide, by decide,
    (AddCommand_fromEnv missingSecretWorld devAddEnv rfl).2.1 (by decide) (by decide)⟩

/-! ## The environment of the sub-process -/

theorem hasKey_apart (k1 k2 : String) (h : keysApart k1 k2 = true) (s : String)
    (h2 : hasKey k2 s = true) : hasKey k1 s = false := by
  rw [Bool.eq_false_iff]
  intro h1
  unfold keysApart at h
  unfold hasKey at h1 h2
  unfold HasPrefix at h h1 h2
  simp only [Bool.and_eq_true, Bool.not_eq_true', List.isPrefixOf_iff_prefix] at h h1 h2
  rw [← Bool.not_eq_true, List.isPrefixOf_iff_prefix] at h
  rw [← Bool.not_eq_true, List.isPrefixOf_iff_prefix] at h
  rcases List.prefix_or_prefix_of_prefix h1 h2 with h3 | h3
  · exact h.2 h3
  · exact h.1 h3

theorem hasKey_entry_apart (k1 k2 v : String) (h : keysApart k1 k2 = true) :
    hasKey k1 (k2 ++ "=" ++ v) = false :=
  hasKey_apart k1 k2 h _ (hasKey_self k2 v)

theorem countP_eraseP_apart (p q : String → Bool) (h : ∀ s, q s = true → p s = false)
    (e : List String) : (e.eraseP q).countP p = e.countP p := by
  induction e with
  | nil => simp
  | cons s rest ih =>
    by_cases hq : q s = true
    · simp [hq, h s hq]
    · rw [List.eraseP_cons_of_neg hq]
      simp [List.countP_cons, ih]

theorem countP_swapRemove_apart (k1 k2 : String) (h : keysApart k1 k2 = true)
    (e : List String) :
    (swapRemove k2 e).countP (hasKey k1) = e.countP (hasKey k1) := by
  rw [(swapRemove_perm k2 e).countP_eq]
  exact countP_eraseP_apart _ _ (hasKey_apart k1 k2 h) e

theorem mem_swapRemove_entry (k1 k2 v : String) (h : keysApart k1 k2 = true)
    (e : List String) : k2 ++ "=" ++ v ∈ swapRemove k1 e ↔ k2 ++ "=" ++ v ∈ e :=
  ⟨mem_swapRemove k1 e _, mem_swapRemove_of_other k1 e _ (hasKey_entry_apart k1 k2 v h)⟩

theorem takeWhile_append_stop (p : Char → Bool) (c : Char) (hc : p c = false)
    (a t : List Char) : (a ++ c :: t).takeWhile p = (a ++ [c]).takeWhile p := by
  induction a with
  | nil => simp [List.takeWhile, hc]
  | cons x xs ih =>
    by_cases hx : p x = true
    · simp [List.takeWhile_cons, hx, ih]
    · simp [List.takeWhile_cons, hx]

theorem keyName_of_hasKey (k s : String) (h : hasKey k s = true) :
    keyName s = keyName (k ++ "=") := by
  unfold hasKey HasPrefix at h
  rw [List.isPrefixOf_iff_prefix] at h
  obtain ⟨t, ht⟩ := h
  unfold keyName
  rw [← ht]
  simp only [String.data_append]
  rw [List.append_assoc, List.singleton_append]
  exact takeWhile_append_stop _ _ (by decide) _ _

/-- When the names of the entries are pairwise distinct, each key occurs at most
once. -/
theorem uniqueKeys_of_nodup (e : environ) (h : (e.map keyName).Nodup) : UniqueKeys e := by
  intro key
  induction e with
  | nil => simp
  | cons s rest ih =>
    rw [List.map_cons, List.nodup_cons] at h
    by_cases hs : hasKey key s = true
    · have hrest : rest.countP (hasKey key) = 0 := by
        rw [List.countP_eq_zero]
        intro t ht hkt
        apply h.1
        rw [keyName_of_hasKey key s hs, ← keyName_of_hasKey key t hkt]
        exact List.mem_map_of_mem keyName ht
      simp [List.countP_cons, hs, hrest]
    · simp only [List.countP_cons, hs, if_false, Bool.false_eq_true]
      exact ih h.2

/-- In server mode nothing of the resolved value is written: the environment
of the sub-process is the same for any two values. -/
theorem env_server_ignores_value (ambient : environ) (profile : String)
    (region : Option String) (val1 val2 : Value) :
    ExecCommand.env ambient profile region false val1
      = ExecCommand.env ambient profile region false val2 := by
  simp [ExecCommand.env]

/-- What holds of the environment of the sub-process when each key occurs at
most once in the ambient environment: it is always built; `AWS_VAULT=profile`
is its only entry for `AWS_VAULT`; it has no entry for `AWS_CREDENTIAL_FILE`,
`AWS_DEFAULT_PROFILE` and `AWS_PROFILE`; in server mode it has no entry for
`AWS_ACCESS_KEY_ID` and `AWS_SECRET_ACCESS_KEY`; outside server mode the
resolved access key id and secret key are the only entries for their keys, and
so is the resolved session token for `AWS_SESSION_TOKEN` and
`AWS_SECURITY_TOKEN` when it is not empty. -/
theorem env_of_unique (ambient : environ) (profile : String) (region : Option String)
    (writeEnv : Bool) (val : Value) (h : UniqueKeys ambient) :
    ∃ env : environ, ExecCommand.env ambient profile region writeEnv val = some env ∧
      "AWS_VAULT" ++ "=" ++ profile ∈ env ∧ env.countP (hasKey "AWS_VAULT") = 1 ∧
      env.countP (hasKey "AWS_CREDENTIAL_FILE") = 0 ∧
      env.countP (hasKey "AWS_DEFAULT_PROFILE") = 0 ∧
      env.countP (hasKey "AWS_PROFILE") = 0 ∧
      (writeEnv = false →
        env.countP (hasKey "AWS_ACCESS_KEY_ID") = 0 ∧
        env.countP (hasKey "AWS_SECRET_ACCESS_KEY") = 0) ∧
      (writeEnv = true →
        "AWS_ACCESS_KEY_ID" ++ "=" ++ val.AccessKeyID ∈ env ∧
        env.countP (hasKey "AWS_ACCESS_KEY_ID") = 1 ∧
        "AWS_SECRET_ACCESS_KEY" ++ "=" ++ val.SecretAccessKey ∈ env ∧
        env.countP (hasKey "AWS_SECRET_ACCESS_KEY") = 1 ∧
        (val.SessionToken ≠ "" →
          "AWS_SESSION_TOKEN" ++ "=" ++ val.SessionToken ∈ env ∧
          env.countP (hasKey "AWS_SESSION_TOKEN") = 1 ∧
          "AWS_SECURITY_TOKEN" ++ "=" ++ val.SessionToken ∈ env ∧
          env.countP (hasKey "AWS_SECURITY_TOKEN") = 1)) := by
  have h1 := h "AWS_VAULT"
  have h2 := h "AWS_ACCESS_KEY_ID"
  have h3 := h "AWS_SECRET_ACCESS_KEY"
  have h4 := h "AWS_CREDENTIAL_FILE"
  have h5 := h "AWS_DEFAULT_PROFILE"
  have h6 := h "AWS_PROFILE"
  have h7 := h "AWS_SESSION_TOKEN"
  have h8 := h "AWS_SECURITY_TOKEN"
  cases region <;> cases writeEnv <;> by_cases ht : val.SessionToken = "" <;>
    simp only [ExecCommand.env, Set_eq, Unset_eq, Option.bind_eq_bind, Option.some_bind,
      ht, ne_eq, not_true_eq_false, not_false_eq_true, if_true, if_false,
      Bool.false_eq_true] <;>
    refine ⟨_, rfl, ?_⟩ <;>
    simp (disch := decide) only [countP_swapRemove_apart, countP_swapRemove_self,
      List.countP_append, List.countP_cons, List.countP_nil, hasKey_self, hasKey_entry_apart,
      mem_swapRemove_entry, List.mem_append, List.mem_singleton] <;>
    simp <;>
    omega

/-- The statement `env_of_unique` at the ambient environment of the test of the
specification, outside server mode. -/
theorem env_of_unique_example :
    UniqueKeys ["HOME=/root", "AWS_ACCESS_KEY_ID=old", "AWS_PROFILE=foo"] ∧
      ExecCommand.env ["HOME=/root", "AWS_ACCESS_KEY_ID=old", "AWS_PROFILE=foo"] "dev" none
          true ⟨"ASIASESSION", "sessionsecret", "token"⟩
        = some ["HOME=/root", "AWS_VAULT=dev", "AWS_ACCESS_KEY_ID=ASIASESSION",
            "AWS_SECRET_ACCESS_KEY=sessionsecret", "AWS_SESSION_TOKEN=token",
            "AWS_SECURITY_TOKEN=token"] ∧
      ∃ env : environ,
        ExecCommand.env ["HOME=/root", "AWS_ACCESS_KEY_ID=old", "AWS_PROFILE=foo"] "dev" none
            true ⟨"ASIASESSION", "sessionsecret", "token"⟩ = some env ∧
          "AWS_VAULT" ++ "=" ++ "dev" ∈ env ∧ env.countP (hasKey "AWS_VAULT") = 1 :=
  ⟨uniqueKeys_of_nodup _ (by decide), by decide,
    (env_of_unique _ "dev" none true ⟨"ASIASESSION", "sessionsecret", "token"⟩
      (uniqueKeys_of_nodup _ (by decide))).imp fun _ henv => ⟨henv.1, henv.2.1, henv.2.2.1⟩⟩

/-- C1, at an ambient environment in which each key occurs once and that
carries a session token: in server mode
the environment of the sub-process still holds `AWS_SESSION_TOKEN=stale` and
`AWS_SECURITY_TOKEN=stale`. -/
theorem ExecCommand_keeps_stale_token :
    UniqueKeys staleTokenWorld.Environ ∧
      ExecCommand staleTokenWorld devServer =
        ⟨[.NewVaultCredentials "dev", .Get "dev", .startCredentialsServer, .parseProfiles,
          .Run "env" [] ["HOME=/root", "AWS_VAULT=dev", "AWS_SECURITY_TOKEN=stale",
            "AWS_SESSION_TOKEN=stale"]], .returned⟩ ∧
      childEnv (ExecCommand staleTokenWorld devServer) =
        some ["HOME=/root", "AWS_VAULT=dev", "AWS_SECURITY_TOKEN=stale",
          "AWS_SESSION_TOKEN=stale"] ∧
      hasKey "AWS_SESSION_TOKEN" "AWS_SESSION_TOKEN=stale" = true ∧
      hasKey "AWS_SECURITY_TOKEN" "AWS_SECURITY_TOKEN=stale" = true :=
  ⟨uniqueKeys_of_nodup _ (by decide), by decide, by decide, by decide, by decide⟩

/-- C2, at an ambient environment in which each key occurs once and that
carries the token of the session the chain resolves: in server mode the environment of the sub-process holds the
entry `AWS_SESSION_TOKEN=` followed by the resolved session token. -/
theorem ExecCommand_server_env_has_token :
    UniqueKeys sameTokenWorld.Environ ∧
      sameTokenWorld.Get "dev" = .ok ⟨"ASIASESSION", "sessionsecret", "token"⟩ ∧
      childEnv (ExecCommand sameTokenWorld devServer) =
        some ["HOME=/root", "AWS_SESSION_TOKEN=token", "AWS_VAULT=dev"] ∧
      "AWS_SESSION_TOKEN" ++ "=" ++ "token" ∈
        ["HOME=/root", "AWS_SESSION_TOKEN=token", "AWS_VAULT=dev"] :=
  ⟨uniqueKeys_of_nodup _ (by decide), rfl, by decide, by decide⟩


end AwsVault
